import Mathlib

/-!
Shallow embedding of the markup-to-HTML pipeline from `src/markup.rs`
(tokenizer, recursive-descent parser, serializer), together with proofs
of the behavioural claims about it.

Rust panics are modelled as `Except MarkupError` failures; `HashMap` is
modelled as an association list whose `insert` replaces an existing key
in place (last-write-wins), with iteration in insertion order.
-/

namespace Markup

/-- Mirrors `enum Token` of `src/markup.rs`. -/
inductive Token where
  | openParen
  | closeParen
  | openBracket
  | closeBracket
  | stringLiteral (s : String)
  | identifier (s : String)
  | equals
deriving DecidableEq

/-- Mirrors `enum IncompleteToken` of `src/markup.rs`. -/
inductive IncompleteToken where
  | none
  | stringLiteral (s : String)
  | identifier (s : String)
deriving DecidableEq

/-- The panic conditions of the pipeline, one constructor per distinct
panic site in `src/markup.rs`. -/
inductive MarkupError where
  /-- Tokenizer: `panic!("Unknown character ...")`. -/
  | unknownChar (c : Char)
  /-- Tokenizer: the unreachable `_ => panic!()` arms. -/
  | tokenizeInvalidState
  /-- `parse_attributes`: `panic!("Only one equals permitted")`. -/
  | onlyOneEquals
  /-- `parse_attributes`: `.expect("Attribute name should be specified")`. -/
  | attrNameRequired
  /-- `parse_attributes`: `panic!("Equal sign needed between attribute name and value")`. -/
  | equalsRequired
  /-- `parse_attributes`: `panic!("Token in invalid position")`. -/
  | tokenInvalidAttr
  /-- `parse_element`: `panic!("Cannot have unnamed elements")`. -/
  | unnamedElement
  /-- `parse_element`: `panic!(") in invalid position")`. -/
  | closeParenInvalidPosition
  /-- `parse_element`: `panic!("Token in invalid position")`. -/
  | tokenInvalidElement
deriving DecidableEq

/-- The singleton token pushed for a separator character, mirroring the
inner `match char` of the separator arm in `tokenize`. -/
def singletonToken (c : Char) : List Token :=
  if c == '\x7b' then [Token.openBracket]
  else if c == '\x7d' then [Token.closeBracket]
  else if c == '(' then [Token.openParen]
  else if c == ')' then [Token.closeParen]
  else if c == '=' then [Token.equals]
  else []

/-- One iteration of the `for char in text.chars()` loop of `tokenize`:
given the current state and character, the tokens emitted and the next
state, or the panic raised. -/
def tokenizeStep : IncompleteToken → Char → Except MarkupError (List Token × IncompleteToken)
  | IncompleteToken.stringLiteral s, c =>
      if c == '\x22' then Except.ok ([Token.stringLiteral s], IncompleteToken.none)
      else Except.ok ([], IncompleteToken.stringLiteral (s.push c))
  | state, c =>
      if c.isAlpha then
        match state with
        | IncompleteToken.none => Except.ok ([], IncompleteToken.identifier (String.singleton c))
        | IncompleteToken.identifier s => Except.ok ([], IncompleteToken.identifier (s.push c))
        | IncompleteToken.stringLiteral _ => Except.error MarkupError.tokenizeInvalidState
      else if c == ' ' || c == '\n' || c == '\x7b' || c == '\x7d' || c == '(' || c == ')' || c == '=' then
        match state with
        | IncompleteToken.identifier id => Except.ok (Token.identifier id :: singletonToken c, IncompleteToken.none)
        | IncompleteToken.none => Except.ok (singletonToken c, IncompleteToken.none)
        | IncompleteToken.stringLiteral _ => Except.error MarkupError.tokenizeInvalidState
      else if c == '\x22' then Except.ok ([], IncompleteToken.stringLiteral "")
      else Except.error (MarkupError.unknownChar c)

/-- The tokenizer loop over the remaining characters.  As in the source,
when the input ends the accumulated tokens are returned and any pending
state is dropped. -/
def tokenizeAux : IncompleteToken → List Char → Except MarkupError (List Token)
  | _, [] => Except.ok []
  | st, c :: cs => do
      let (ts, st') ← tokenizeStep st c
      let rest ← tokenizeAux st' cs
      Except.ok (ts ++ rest)

/-- Mirrors `fn tokenize(text: &str) -> Vec<Token>` of `src/markup.rs`. -/
def tokenize (text : String) : Except MarkupError (List Token) :=
  tokenizeAux IncompleteToken.none text.data

example : tokenize "div(" = Except.ok [Token.identifier "div", Token.openParen] := by rfl

example : tokenize "" = Except.ok [] := by rfl

example : tokenize "div" = Except.ok [] := by rfl

/-- Mirrors `struct TreeNode` of `src/markup.rs`.  The `HashMap` of
attributes is modelled as an association list kept in insertion order. -/
structure TreeNode where
  element : String
  attributes : List (String × String)
  children : List TreeNode

/-- Mirrors `HashMap::insert`: replace the value of an existing key,
otherwise add the pair. -/
def insertAttr : List (String × String) → String → String → List (String × String)
  | [], k, v => [(k, v)]
  | (k', v') :: rest, k, v =>
      if k' == k then (k, v) :: rest else (k', v') :: insertAttr rest k v

/-- The `while let` loop of `parse_attributes`: `tree` is the node being
mutated, `name` and `hasEq` are `attribute_name` and `has_seen_equals`,
`toks` the remaining tokens and `i` the index of the next token in the
slice passed to `parse_attributes`. -/
def parseAttributesAux (tree : TreeNode) (name : Option String) (hasEq : Bool) :
    List Token → Nat → Except MarkupError (TreeNode × Nat)
  | [], i => Except.ok (tree, i)
  | t :: rest, i =>
      match t with
      | Token.identifier id => parseAttributesAux tree (some id) hasEq rest (i + 1)
      | Token.equals =>
          if hasEq then Except.error MarkupError.onlyOneEquals
          else parseAttributesAux tree name true rest (i + 1)
      | Token.stringLiteral v =>
          match name with
          | none => Except.error MarkupError.attrNameRequired
          | some attr =>
              if hasEq then
                parseAttributesAux
                  { tree with attributes := insertAttr tree.attributes attr v }
                  none false rest (i + 1)
              else Except.error MarkupError.equalsRequired
      | Token.closeParen => Except.ok (tree, i)
      | _ => Except.error MarkupError.tokenInvalidAttr

/-- Mirrors `fn parse_attributes(tree: &mut TreeNode, tokens: &[Token]) -> usize`:
returns the updated node and the index of the `CloseParen` in the slice
(or the slice length when the tokens run out). -/
def parse_attributes (tree : TreeNode) (tokens : List Token) :
    Except MarkupError (TreeNode × Nat) :=
  parseAttributesAux tree none false tokens 0

mutual

/-- The `while let` loop of `parse_element`.  The list argument is the
remaining tokens of the slice passed to `parse_element`, and the `Nat`
argument is the index (within that slice) of the head of the remaining
list; when the list is empty that index equals the slice length, so the
two `return` sites of the source are both `Except.ok (tree, i)` here.
`iter.nth(end)` is reproduced by `skipTokens`, which drops `end + 1`
tokens while advancing the index. -/
def parseLoop : TreeNode → List Token → Nat → Except MarkupError (TreeNode × Nat)
  | tree, [], i => Except.ok (tree, i)
  | tree, Token.identifier id :: rest, i =>
      parseLoop { tree with element := id } rest (i + 1)
  | tree, Token.openParen :: rest, i =>
      if tree.element == "" then Except.error MarkupError.unnamedElement
      else
        match parse_attributes tree rest with
        | Except.error err => Except.error err
        | Except.ok (tree', e) => skipTokens tree' rest e (i + 1)
  | _, Token.closeParen :: _, _ => Except.error MarkupError.closeParenInvalidPosition
  | tree, Token.openBracket :: rest, i =>
      if tree.element == "" then Except.error MarkupError.unnamedElement
      else
        match parseLoop ⟨"", [], []⟩ rest 0 with
        | Except.error err => Except.error err
        | Except.ok (child, e) =>
            skipTokens { tree with children := tree.children ++ [child] } rest e (i + 1)
  | tree, Token.closeBracket :: _, i => Except.ok (tree, i)
  | _, _ :: _, _ => Except.error MarkupError.tokenInvalidElement

/-- Mirrors `iter.nth(n)` inside the `parse_element` loop: consume `n + 1`
tokens (advancing the index alongside), then resume the loop; if the
tokens run out first, the loop's `while let` ends, returning the current
index, which then equals the slice length. -/
def skipTokens : TreeNode → List Token → Nat → Nat → Except MarkupError (TreeNode × Nat)
  | tree, [], _, i => Except.ok (tree, i)
  | tree, _ :: rest, 0, i => parseLoop tree rest (i + 1)
  | tree, _ :: rest, n + 1, i => skipTokens tree rest n (i + 1)

end

/-- Mirrors `fn parse_element(tokens: &[Token]) -> (TreeNode, usize)`. -/
def parse_element (tokens : List Token) : Except MarkupError (TreeNode × Nat) :=
  parseLoop ⟨"", [], []⟩ tokens 0

/-- Mirrors `fn parse(tokens: &[Token]) -> TreeNode`. -/
def parse (tokens : List Token) : Except MarkupError TreeNode :=
  (parse_element tokens).map Prod.fst

example : parse [] = Except.ok ⟨"", [], []⟩ := by rfl

/-- The `for (attribute, value) in &tree.attributes` loop of
`markup_to_html`, building `attributes_html`.  The `HashMap` iteration
order is modelled as insertion order (see the module comment); every
claim proved below renders maps with at most one entry, where the two
orders coincide. -/
def attributesToHtml (attrs : List (String × String)) : String :=
  attrs.foldl (fun acc p => acc ++ p.1 ++ "=\x22" ++ p.2 ++ "\x22") ""

mutual

/-- Mirrors `fn markup_to_html(tree: &TreeNode, ident_level: usize) -> String`. -/
def markup_to_html : TreeNode → Nat → String
  | TreeNode.mk el attrs children, identLevel =>
      let ident := String.join (List.replicate identLevel "\t")
      let opening :=
        if attrs.isEmpty then ident ++ "<" ++ el ++ ">\n"
        else ident ++ "<" ++ el ++ " " ++ attributesToHtml attrs ++ ">\n"
      opening ++ childrenToHtml children (identLevel + 1) ++ "\n" ++ ident ++ "<" ++ el ++ "/>"

/-- The `for node in &tree.children` loop of `markup_to_html`. -/
def childrenToHtml : List TreeNode → Nat → String
  | [], _ => ""
  | c :: cs, identLevel => markup_to_html c identLevel ++ childrenToHtml cs identLevel

end

/-- Mirrors `fn markup_text_to_html(text: &str) -> String`. -/
def markup_text_to_html (text : String) : Except MarkupError String := do
  let tokens ← tokenize text
  let tree ← parse tokens
  Except.ok (markup_to_html tree 0)

example : markup_to_html ⟨"p", [], []⟩ 0 = "<p>\n\n<p/>" := by rfl

example : markup_to_html ⟨"p", [("a", "b")], []⟩ 1 = "\t<p a=\x22b\x22>\n\n\t<p/>" := by rfl

/-- A string of `n` tab characters, the indent emitted for depth `n`. -/
def tabs : Nat → String
  | 0 => ""
  | n + 1 => "\t" ++ tabs n

/-- The `vec!["\t"; ident_level].join("")` indent equals `ident_level`
tab characters. -/
theorem join_replicate_tab (n : Nat) : String.join (List.replicate n "\t") = tabs n := by
  induction n with
  | zero => rfl
  | succ m ih =>
      show String.join ("\t" :: List.replicate m "\t") = "\t" ++ tabs m
      rw [← ih]
      apply String.ext
      simp [String.data_join]

mutual

/-- Decides whether every node of a tree (the node itself and all of its
descendants) carries a non-empty tag. -/
def allTagsNonempty : TreeNode → Bool
  | TreeNode.mk el _ children => (el != "") && allTagsNonemptyForest children

/-- `allTagsNonempty` over a list of trees. -/
def allTagsNonemptyForest : List TreeNode → Bool
  | [] => true
  | c :: cs => allTagsNonempty c && allTagsNonemptyForest cs

end

/-- The loop of `parse_attributes` never changes the `element` or
`children` fields of the node it mutates, whatever its pending state. -/
theorem parseAttributesAux_frame (toks : List Token) :
    ∀ (tree : TreeNode) (name : Option String) (hasEq : Bool) (i : Nat)
      (t' : TreeNode) (n : Nat),
      parseAttributesAux tree name hasEq toks i = Except.ok (t', n) →
      t'.element = tree.element ∧ t'.children = tree.children := by
  induction toks with
  | nil =>
      intro tree name hasEq i t' n h
      simp only [parseAttributesAux, Except.ok.injEq, Prod.mk.injEq] at h
      rw [← h.1]
      exact ⟨rfl, rfl⟩
  | cons t rest ih =>
      intro tree name hasEq i t' n h
      cases t with
      | identifier id => exact ih tree (some id) hasEq (i + 1) t' n h
      | equals =>
          cases hasEq with
          | true => exact absurd h (by simp [parseAttributesAux])
          | false => exact ih tree name true (i + 1) t' n h
      | stringLiteral v =>
          cases name with
          | none => exact absurd h (by simp [parseAttributesAux])
          | some attr =>
              cases hasEq with
              | false => exact absurd h (by simp [parseAttributesAux])
              | true =>
                  have := ih { tree with attributes := insertAttr tree.attributes attr v }
                    none false (i + 1) t' n h
                  exact this
      | closeParen =>
          simp only [parseAttributesAux, Except.ok.injEq, Prod.mk.injEq] at h
          rw [← h.1]
          exact ⟨rfl, rfl⟩
      | openParen => exact absurd h (by simp [parseAttributesAux])
      | openBracket => exact absurd h (by simp [parseAttributesAux])
      | closeBracket => exact absurd h (by simp [parseAttributesAux])

/-- Splits a character list into its lines at newline characters
(accumulator holds the current line reversed). -/
def splitLinesAux : List Char → List Char → List String
  | acc, [] => [String.mk acc.reverse]
  | acc, c :: cs =>
      if c = '\n' then String.mk acc.reverse :: splitLinesAux [] cs
      else splitLinesAux (c :: acc) cs

/-- The lines of a string, used to state indentation properties. -/
def splitLines (s : String) : List String :=
  splitLinesAux [] s.data

/-- C1: the input `div(class="flex") { p(text="Hello") }` tokenizes and
parses to a single root element `div` with attribute map exactly
`class -> flex` whose one child is `p` with attribute map exactly
`text -> Hello`, and the rendered output's lines show the child's opening
and closing lines carrying exactly one tab of indent while the root's
carry none. -/
theorem concrete_div_p_scenario :
    tokenize "div(class=\x22flex\x22) \x7b p(text=\x22Hello\x22) \x7d" =
      Except.ok [Token.identifier "div", Token.openParen, Token.identifier "class",
        Token.equals, Token.stringLiteral "flex", Token.closeParen, Token.openBracket,
        Token.identifier "p", Token.openParen, Token.identifier "text", Token.equals,
        Token.stringLiteral "Hello", Token.closeParen, Token.closeBracket] ∧
    parse [Token.identifier "div", Token.openParen, Token.identifier "class",
        Token.equals, Token.stringLiteral "flex", Token.closeParen, Token.openBracket,
        Token.identifier "p", Token.openParen, Token.identifier "text", Token.equals,
        Token.stringLiteral "Hello", Token.closeParen, Token.closeBracket] =
      Except.ok (TreeNode.mk "div" [("class", "flex")]
        [TreeNode.mk "p" [("text", "Hello")] []]) ∧
    markup_text_to_html "div(class=\x22flex\x22) \x7b p(text=\x22Hello\x22) \x7d" =
      Except.ok "<div class=\x22flex\x22>\n\t<p text=\x22Hello\x22>\n\n\t<p/>\n<div/>" ∧
    splitLines "<div class=\x22flex\x22>\n\t<p text=\x22Hello\x22>\n\n\t<p/>\n<div/>" =
      ["<div class=\x22flex\x22>", "\t<p text=\x22Hello\x22>", "", "\t<p/>", "<div/>"] :=
  ⟨rfl, rfl, rfl, rfl⟩

/-- C2: on the empty input, `tokenize` does yield an empty token
sequence, but parsing that sequence yields a single node with empty tag
rather than an empty forest, and the pipeline renders it as
`<>\n\n</>` rather than returning the empty string. -/
theorem empty_input_not_empty_output :
    tokenize "" = Except.ok [] ∧
    parse [] = Except.ok (TreeNode.mk "" [] []) ∧
    markup_text_to_html "" = Except.ok "<>\n\n</>" ∧
    markup_text_to_html "" ≠ Except.ok "" := by
  refine ⟨rfl, rfl, rfl, ?_⟩
  intro h
  have h0 : markup_text_to_html "" = Except.ok "<>\n\n</>" := rfl
  rw [h0] at h
  injection h with h2
  exact absurd h2 (by decide)

/-- C3: `tokenize` drops an identifier still being accumulated when the
input ends: `tokenize "div"` is the empty token sequence, so it does not
contain `Identifier("div")` (the `tokenizeAux` equation shows the pending
state is discarded whatever it is). -/
theorem tokenize_drops_pending_identifier :
    (∀ st : IncompleteToken, tokenizeAux st [] = Except.ok []) ∧
    tokenize "div" = Except.ok [] ∧
    ¬ ∃ toks, tokenize "div" = Except.ok toks ∧ Token.identifier "div" ∈ toks := by
  refine ⟨fun st => rfl, rfl, ?_⟩
  rintro ⟨toks, h1, h2⟩
  have h0 : tokenize "div" = Except.ok [] := rfl
  rw [h0] at h1
  injection h1 with h3
  rw [← h3] at h2
  exact List.not_mem_nil _ h2

/-- C4: for `parent { a b c }` with bare leaf identifiers, each
identifier overwrites the pending element's tag, so the parsed `parent`
element has exactly one child, tagged `c`, and the rendered output shows
only `c` — not the three children in source order the claim requires. -/
theorem bare_siblings_collapse_to_last :
    tokenize "parent \x7b a b c \x7d" =
      Except.ok [Token.identifier "parent", Token.openBracket, Token.identifier "a",
        Token.identifier "b", Token.identifier "c", Token.closeBracket] ∧
    parse [Token.identifier "parent", Token.openBracket, Token.identifier "a",
        Token.identifier "b", Token.identifier "c", Token.closeBracket] =
      Except.ok (TreeNode.mk "parent" [] [TreeNode.mk "c" [] []]) ∧
    markup_text_to_html "parent \x7b a b c \x7d" =
      Except.ok "<parent>\n\t<c>\n\n\t<c/>\n<parent/>" :=
  ⟨rfl, rfl, rfl⟩

/-- C5: the non-empty-tag invariant fails on the code: parsing the
well-formed input `div {}` succeeds and yields a `div` whose single child
node has the empty tag (and the empty token sequence likewise parses to a
root with empty tag). -/
theorem empty_tag_reachable :
    tokenize "div \x7b\x7d" =
      Except.ok [Token.identifier "div", Token.openBracket, Token.closeBracket] ∧
    parse [Token.identifier "div", Token.openBracket, Token.closeBracket] =
      Except.ok (TreeNode.mk "div" [] [TreeNode.mk "" [] []]) ∧
    allTagsNonempty (TreeNode.mk "div" [] [TreeNode.mk "" [] []]) = false :=
  ⟨rfl, rfl, rfl⟩

/-- C6: parsing `tag(a="1" a="2")` succeeds and yields exactly one
attribute `a` whose value is the last one parsed, `2`. -/
theorem duplicate_attribute_last_wins :
    tokenize "tag(a=\x221\x22 a=\x222\x22)" =
      Except.ok [Token.identifier "tag", Token.openParen, Token.identifier "a",
        Token.equals, Token.stringLiteral "1", Token.identifier "a", Token.equals,
        Token.stringLiteral "2", Token.closeParen] ∧
    parse [Token.identifier "tag", Token.openParen, Token.identifier "a",
        Token.equals, Token.stringLiteral "1", Token.identifier "a", Token.equals,
        Token.stringLiteral "2", Token.closeParen] =
      Except.ok (TreeNode.mk "tag" [("a", "2")] []) :=
  ⟨rfl, rfl⟩

/-- C7: an element with no attributes and no children renders at depth
`d` as exactly `d` tabs, the bare opening tag, a newline, a second
newline, `d` tabs, and the closing marker. -/
theorem render_leaf_exact_shape (tag : String) (d : Nat) :
    markup_to_html ⟨tag, [], []⟩ d =
      tabs d ++ "<" ++ tag ++ ">" ++ "\n" ++ "\n" ++ tabs d ++ "<" ++ tag ++ "/>" := by
  have h1 : (">\n" : String) = ">" ++ "\n" := rfl
  simp only [markup_to_html, childrenToHtml, List.isEmpty_nil, if_pos, join_replicate_tab, h1,
    String.append_empty, String.empty_append, String.append_assoc]

/-- C8: inside an attribute list a string literal with no pending name
fails with the attribute-name-required panic, and one with a pending name
but no equals sign fails with the equals-sign-required panic, whatever
the rest of the state; on the inputs `div("x")` and `div(a "x")` the whole
pipeline aborts with those failures and produces no HTML. -/
theorem string_literal_attr_errors :
    (∀ (tree : TreeNode) (hasEq : Bool) (v : String) (rest : List Token) (i : Nat),
        parseAttributesAux tree none hasEq (Token.stringLiteral v :: rest) i =
          Except.error MarkupError.attrNameRequired) ∧
    (∀ (tree : TreeNode) (nm v : String) (rest : List Token) (i : Nat),
        parseAttributesAux tree (some nm) false (Token.stringLiteral v :: rest) i =
          Except.error MarkupError.equalsRequired) ∧
    markup_text_to_html "div(\x22x\x22)" = Except.error MarkupError.attrNameRequired ∧
    markup_text_to_html "div(a \x22x\x22)" = Except.error MarkupError.equalsRequired :=
  ⟨fun _ _ _ _ _ => rfl, fun _ _ _ _ _ => rfl, rfl, rfl⟩

/-- C9: reaching the closing `)` with a pending attribute name (or a
pending equals sign) does not fail: `parse_attributes` returns normally,
silently dropping the pending attribute, and the pipeline renders
`div(a)` and `div(a=)` as a plain attribute-less `div`. -/
theorem pending_attr_close_paren_accepted :
    parse_attributes (TreeNode.mk "div" [] [])
        [Token.identifier "a", Token.closeParen] =
      Except.ok (TreeNode.mk "div" [] [], 1) ∧
    markup_text_to_html "div(a)" = Except.ok "<div>\n\n<div/>" ∧
    markup_text_to_html "div(a=)" = Except.ok "<div>\n\n<div/>" :=
  ⟨rfl, rfl, rfl⟩

/-- C10: `parse_attributes` only touches the attribute map of the node:
whenever it returns, the node's tag and children are those of the node it
was given, for every node and every token slice. -/
theorem parse_attributes_frame (tree : TreeNode) (tokens : List Token)
    (t' : TreeNode) (n : Nat)
    (h : parse_attributes tree tokens = Except.ok (t', n)) :
    t'.element = tree.element ∧ t'.children = tree.children :=
  parseAttributesAux_frame tokens tree none false 0 t' n h

/-- Witness for `parse_attributes_frame` at a concrete node and slice. -/
theorem parse_attributes_frame_witness :
    (TreeNode.mk "div" [("a", "b")] [TreeNode.mk "p" [] []]).element =
      (TreeNode.mk "div" [] [TreeNode.mk "p" [] []]).element ∧
    (TreeNode.mk "div" [("a", "b")] [TreeNode.mk "p" [] []]).children =
      (TreeNode.mk "div" [] [TreeNode.mk "p" [] []]).children :=
  parse_attributes_frame (TreeNode.mk "div" [] [TreeNode.mk "p" [] []])
    [Token.identifier "a", Token.equals, Token.stringLiteral "b", Token.closeParen]
    (TreeNode.mk "div" [("a", "b")] [TreeNode.mk "p" [] []]) 3 rfl

end Markup
